import Mathlib

/-!
Verification of the G-TRAF admin dashboard core (src/src/Composant/Dashboard.jsx):
the reservation pricing function `calcCarPrice` and the client-side table
query engine of the `DataTable` component (its `sortedData` and `filteredData`
steps), shallowly embedded as executable Lean definitions.

Modeling conventions:
* JavaScript scalar record values are the inductive `JSVal`; a field read on a
  record that lacks the field yields `JSVal.undef`, mirroring `a[sortField]`
  being `undefined`.
* Numbers are modeled as integers (every numeric value the dashboard stores is
  integral); `Option Int` models a JavaScript number that may be NaN, with
  `none` for NaN.
* Strings are compared with code-point lexicographic order (`lexLt`), matching
  JavaScript's code-unit comparison on the basic plane.
* `new Date(startDate + "T" + startTime)` on a well-formed date and time pair
  is modeled by a day index and a minutes-of-day count combined into an epoch
  millisecond instant by `toMs`; `Math.ceil` of the millisecond quotient is
  `ceilDiv`.
* `Array.prototype.sort` with a comparator is modeled by the stable insertion
  sort `stableSort`: an element is inserted before the first element it does
  not compare strictly greater than, which preserves the relative order of
  elements that compare equal.
-/

namespace GTraf

/-- JavaScript scalar values occurring in dashboard records. `undef` is the
result of reading an absent field. -/
inductive JSVal where
  | undef : JSVal
  | null : JSVal
  | boolean : Bool → JSVal
  | num : Int → JSVal
  | str : String → JSVal
deriving DecidableEq

/-- ASCII lowercasing of one character, as `toLowerCase` acts on the ASCII
range of the dashboard's data. -/
def lowerChar (c : Char) : Char :=
  if 65 ≤ c.toNat ∧ c.toNat ≤ 90 then Char.ofNat (c.toNat + 32) else c

/-- Lowercased character sequence of a string (`s.toLowerCase()`). -/
def lowerStr (s : String) : List Char := s.data.map lowerChar

/-- Code-point lexicographic strict comparison of character sequences, the
semantics of `<` on two JavaScript strings. -/
def lexLt : List Char → List Char → Bool
  | [], [] => false
  | [], _ :: _ => true
  | _ :: _, [] => false
  | a :: as, b :: bs => if a < b then true else if b < a then false else lexLt as bs

/-- Value of a digit sequence read in base 10. -/
def digitsVal (cs : List Char) : Nat :=
  cs.foldl (fun acc c => acc * 10 + (c.toNat - 48)) 0

/-- JavaScript string-to-number conversion restricted to the integral numeric
literals occurring in the dashboard's data: the empty string is 0, an optional
sign followed by decimal digits is the signed value, anything else is NaN
(`none`). -/
def parseNum : List Char → Option Int
  | [] => some 0
  | '-' :: rest =>
      if !rest.isEmpty && rest.all Char.isDigit then some (-(digitsVal rest : Int)) else none
  | '+' :: rest =>
      if !rest.isEmpty && rest.all Char.isDigit then some ((digitsVal rest : Int)) else none
  | cs => if cs.all Char.isDigit then some ((digitsVal cs : Int)) else none

/-- JavaScript `ToNumber` on the modeled scalars; `none` models NaN. -/
def toNumber : JSVal → Option Int
  | .undef => none
  | .null => some 0
  | .boolean b => some (if b then 1 else 0)
  | .num n => some n
  | .str s => parseNum s.data

/-- Numeric comparison where `none` is NaN: false whenever a side is NaN. -/
def optLt (x y : Option Int) : Bool :=
  match x, y with
  | some a, some b => decide (a < b)
  | _, _ => false

/-- The JavaScript `<` operator on modeled scalars: lexicographic when both
operands are strings, otherwise numeric after `ToNumber`, and false whenever
either side converts to NaN. `a > b` in JavaScript is `jsLt b a`. -/
def jsLt (a b : JSVal) : Bool :=
  match a, b with
  | .str s, .str t => lexLt s.data t.data
  | a, b => optLt (toNumber a) (toNumber b)

/-- A dashboard record: an ordered field-to-scalar mapping, as rendered rows
are (quote requests, reservations, portfolio items). -/
abbrev RecordT := List (String × JSVal)

/-- Field read `a[f]` on a record: the first binding of the key, `undef` when
the key is absent. -/
def getField (r : RecordT) (f : String) : JSVal :=
  match r with
  | [] => .undef
  | (k, v) :: rest => if k = f then v else getField rest f

/-- The DataTable sort comparator: with `aValue = a[sortField]` and
`bValue = b[sortField]`, return -1 when `aValue < bValue` and 1 when
`aValue > bValue` (swapped for a non-ascending direction), else 0. -/
def recComp (f dir : String) (a b : RecordT) : Int :=
  let aV := getField a f
  let bV := getField b f
  if jsLt aV bV then (if dir = "asc" then -1 else 1)
  else if jsLt bV aV then (if dir = "asc" then 1 else -1)
  else 0

/-- Stable insertion of `x`: `x` is placed before the first element `y` with
`c x y ≤ 0`, so an element inserted later (earlier in the input) precedes the
elements it compares equal to. -/
def insertS (c : α → α → Int) (x : α) : List α → List α
  | [] => [x]
  | y :: ys => if c x y ≤ 0 then x :: y :: ys else y :: insertS c x ys

/-- Stable sort by a three-way comparator, modeling the required-stable
`Array.prototype.sort`. -/
def stableSort (c : α → α → Int) : List α → List α
  | [] => []
  | x :: xs => insertS c x (stableSort c xs)

/-- The `sortedData` step of DataTable: identity when `sortField` is falsy
(null or the empty string), otherwise a stable sort by the field comparator. -/
def sortedData (data : List RecordT) (sortField : Option String) (dir : String) :
    List RecordT :=
  match sortField with
  | none => data
  | some f => if f = "" then data else stableSort (recComp f dir) data

/-- Containment test for a character sequence at the head of another. -/
def lPre : List Char → List Char → Bool
  | [], _ => true
  | _ :: _, [] => false
  | a :: as, b :: bs => a == b && lPre as bs

/-- Substring containment `hay.includes(need)` on character sequences. -/
def lSub (need hay : List Char) : Bool :=
  match hay with
  | [] => need.isEmpty
  | _ :: bs => lPre need hay || lSub need bs

/-- Display string `String(value)` of a scalar, as the filter sees it. -/
def display : JSVal → String
  | .undef => "undefined"
  | .null => "null"
  | .boolean true => "true"
  | .boolean false => "false"
  | .num n => toString n
  | .str s => s

/-- Search predicate of the filter step: some field value, rendered with
`String(...)` and lowercased, contains the lowercased term. -/
def matchesTerm (term : String) (r : RecordT) : Bool :=
  r.any fun kv => lSub (lowerStr term) (lowerStr (display kv.2))

/-- The `filteredData` step of DataTable: identity when the search term is
falsy (empty), otherwise keep the records matching the term. -/
def filteredData (term : String) (l : List RecordT) : List RecordT :=
  if term = "" then l else l.filter (matchesTerm term)

/-- The full DataTable view pipeline: sort, then filter. -/
def view (l : List RecordT) (term : String) (sortField : Option String)
    (dir : String) : List RecordT :=
  filteredData term (sortedData l sortField dir)

/-- A reservation draft, with the full field set of the reservation form.
Dates are day indices and times are minutes of the day, standing for valid
`YYYY-MM-DD` / `HH:MM` strings; `none` models a missing (falsy) field. -/
structure Reservation where
  name : String
  email : String
  phone : String
  address : String
  idNumber : String
  vehicleType : String
  model : String
  startDate : Option Nat
  startTime : Option Nat
  endDate : Option Nat
  endTime : Option Nat
  pickupLocation : String
  dropoffLocation : String
  driver : Bool
  unlimitedKm : Bool
  insurances : List String
  equipments : List String
  paymentMethod : String
  deposit : String
  notes : String
deriving DecidableEq

/-- Epoch milliseconds of the instant `new Date(date + "T" + time)` obtained
by pairing a date (day index) with a time of day (minutes) in one local
timezone. -/
def toMs (day minutes : Nat) : Int := (day : Int) * 86400000 + (minutes : Int) * 60000

/-- Ceiling division for a positive divisor, the `Math.ceil((end - start) / d)`
of the source. -/
def ceilDiv (a b : Int) : Int := -(-a / b)

/-- The vehicle-class base rate table with its `|| 120` fallback. -/
def vehiclePricing (vt : String) : Int :=
  if vt = "Citadine" then 80
  else if vt = "Berline" then 120
  else if vt = "SUV/4x4" then 180
  else if vt = "Utilitaire" then 100
  else if vt = "Minibus" then 200
  else 120

/-- The pricing function `calcCarPrice` of Dashboard.jsx, line for line: 0 on
a draft missing any of the four date or time fields, otherwise the base rate
times the day count plus the option surcharges. -/
def calcCarPrice (r : Reservation) : Int :=
  match r.startDate, r.endDate, r.startTime, r.endTime with
  | some sd, some ed, some st, some et =>
    let start := toMs sd st
    let stop := toMs ed et
    let days := ceilDiv (stop - start) 86400000
    let basePrice := vehiclePricing r.vehicleType
    let p1 := basePrice * days
    let p2 := if r.driver then p1 + 50 * days else p1
    let p3 := if r.unlimitedKm then p2 + 30 * days else p2
    let p4 := if r.insurances.contains "Tous risques" then p3 + 25 * days else p3
    if r.equipments.length > 0 then p4 + 10 * (r.equipments.length : Int) * days else p4
  | _, _, _, _ => 0

/-- Modelled from the spec: the per-day base rate as the specification words
it — 80 for Citadine, 120 for Berline, 180 for SUV/4x4, 100 for Utilitaire,
200 for Minibus, and 120 for any other vehicle class. -/
def specBase (vt : String) : Int :=
  if vt = "Citadine" then 80
  else if vt = "Berline" then 120
  else if vt = "SUV/4x4" then 180
  else if vt = "Utilitaire" then 100
  else if vt = "Minibus" then 200
  else 120

/-- Modelled from the spec: the claimed closed price formula
`(base + 50*[withDriver] + 30*[unlimitedMileage] + 25*[comprehensive]
+ 10*count(equipments)) * days` with
`days = ceil((end_instant - start_instant) / 1 day)`. -/
def specPrice (r : Reservation) (sd st ed et : Nat) : Int :=
  let days := ceilDiv (toMs ed et - toMs sd st) 86400000
  (specBase r.vehicleType
    + (if r.driver then 50 else 0)
    + (if r.unlimitedKm then 30 else 0)
    + (if r.insurances.contains "Tous risques" then 25 else 0)
    + 10 * (r.equipments.length : Int)) * days

/-- Example reservation of the specification's test properties: a two-day
SUV/4x4 with driver, unlimited mileage, comprehensive insurance and two
equipment items. -/
def resExample : Reservation :=
  { name := "Awa", email := "awa@example.com", phone := "0600000000"
    address := "1 rue A", idNumber := "ID1"
    vehicleType := "SUV/4x4", model := "X"
    startDate := some 0, startTime := some 0, endDate := some 2, endTime := some 0
    pickupLocation := "Gare", dropoffLocation := "Aéroport"
    driver := true, unlimitedKm := true
    insurances := ["Tous risques"], equipments := ["GPS", "Wi-Fi"]
    paymentMethod := "CB", deposit := "200", notes := "" }

/-- A complete draft whose end instant is one day before its start instant. -/
def resBackwards : Reservation :=
  { resExample with
    vehicleType := "Berline"
    driver := false
    unlimitedKm := false
    insurances := []
    equipments := []
    startDate := some 1
    endDate := some 0 }

theorem filter_twice (p : α → Bool) (l : List α) :
    (l.filter p).filter p = l.filter p := by
  induction l with
  | nil => rfl
  | cons a t ih => by_cases h : p a <;> simp [List.filter_cons, h, ih]

theorem ceilDiv_nonneg {a b : Int} (ha : 0 ≤ a) (hb : 0 < b) : 0 ≤ ceilDiv a b := by
  unfold ceilDiv
  have h2 : -a / b ≤ 0 / b := Int.ediv_le_ediv hb (by omega)
  simp only [Int.zero_ediv] at h2
  omega

theorem vehiclePricing_pos (vt : String) : 0 < vehiclePricing vt := by
  unfold vehiclePricing
  split_ifs <;> norm_num

theorem calcCarPrice_missing_none (r : Reservation)
    (h : r.startDate = none ∨ r.startTime = none ∨ r.endDate = none ∨ r.endTime = none) :
    calcCarPrice r = 0 := by
  unfold calcCarPrice
  split
  next sd ed st et h1 h3 h2 h4 => rcases h with h | h | h | h <;> simp_all
  next => rfl

theorem calcCarPrice_some (r : Reservation) (sd st ed et : Nat)
    (h1 : r.startDate = some sd) (h2 : r.startTime = some st)
    (h3 : r.endDate = some ed) (h4 : r.endTime = some et) :
    calcCarPrice r =
      vehiclePricing r.vehicleType * ceilDiv (toMs ed et - toMs sd st) 86400000
        + (if r.driver then 50 * ceilDiv (toMs ed et - toMs sd st) 86400000 else 0)
        + (if r.unlimitedKm then 30 * ceilDiv (toMs ed et - toMs sd st) 86400000 else 0)
        + (if r.insurances.contains "Tous risques"
            then 25 * ceilDiv (toMs ed et - toMs sd st) 86400000 else 0)
        + (if r.equipments.length > 0
            then 10 * (r.equipments.length : Int) * ceilDiv (toMs ed et - toMs sd st) 86400000
            else 0) := by
  unfold calcCarPrice
  rw [h1, h3, h2, h4]
  dsimp only
  split_ifs <;> ring

theorem specBase_eq_vehiclePricing (vt : String) : specBase vt = vehiclePricing vt := rfl

/-- Claim C1: on a draft with all four date and time fields present,
`calcCarPrice` equals the closed formula
`(base + 50*[withDriver] + 30*[unlimitedMileage] + 25*[comprehensive]
+ 10*count(equipments)) * days`, with `days` the ceiling of the instant
difference in days and the base given by the class table with default 120. -/
theorem calcCarPrice_matches_spec_formula (r : Reservation) (sd st ed et : Nat)
    (h1 : r.startDate = some sd) (h2 : r.startTime = some st)
    (h3 : r.endDate = some ed) (h4 : r.endTime = some et) :
    calcCarPrice r = specPrice r sd st ed et := by
  rw [calcCarPrice_some r sd st ed et h1 h2 h3 h4]
  unfold specPrice
  rw [specBase_eq_vehiclePricing]
  split_ifs <;>
    first
      | ring1
      | (have hz : r.equipments.length = 0 := by omega
         simp [hz]; try ring1)

/-- Witness for C1 at the specification's own two-day SUV example. -/
theorem calcCarPrice_matches_spec_formula_witness :
    calcCarPrice resExample = specPrice resExample 0 0 2 0 ∧ calcCarPrice resExample = 610 :=
  ⟨calcCarPrice_matches_spec_formula resExample 0 0 2 0 rfl rfl rfl rfl, by decide⟩

/-- Counterexample to claim C2: a complete draft whose end instant lies one
day before its start instant gets the strictly negative price -120. -/
theorem calcCarPrice_negative_example :
    calcCarPrice resBackwards = -120 ∧ calcCarPrice resBackwards < 0 := by
  constructor <;> decide

/-- Claim C2 (amended): the price is non-negative for every draft that is
incomplete or whose end instant is not before its start instant. -/
theorem calcCarPrice_nonneg_of_ordered (r : Reservation)
    (h : ∀ sd st ed et, r.startDate = some sd → r.startTime = some st →
      r.endDate = some ed → r.endTime = some et → toMs sd st ≤ toMs ed et) :
    0 ≤ calcCarPrice r := by
  cases h1 : r.startDate with
  | none => rw [calcCarPrice_missing_none r (Or.inl h1)]
  | some sd =>
  cases h2 : r.startTime with
  | none => rw [calcCarPrice_missing_none r (Or.inr (Or.inl h2))]
  | some st =>
  cases h3 : r.endDate with
  | none => rw [calcCarPrice_missing_none r (Or.inr (Or.inr (Or.inl h3)))]
  | some ed =>
  cases h4 : r.endTime with
  | none => rw [calcCarPrice_missing_none r (Or.inr (Or.inr (Or.inr h4)))]
  | some et =>
  have hle := h sd st ed et h1 h2 h3 h4
  have hd : 0 ≤ ceilDiv (toMs ed et - toMs sd st) 86400000 :=
    ceilDiv_nonneg (by omega) (by norm_num)
  have hb := le_of_lt (vehiclePricing_pos r.vehicleType)
  have hlen : (0 : Int) ≤ (r.equipments.length : Int) := Int.natCast_nonneg _
  rw [calcCarPrice_some r sd st ed et h1 h2 h3 h4]
  split_ifs <;>
    nlinarith [mul_nonneg hb hd, mul_nonneg hlen hd]

/-- Witness for the amended C2 at the two-day SUV example. -/
theorem calcCarPrice_nonneg_of_ordered_witness : 0 ≤ calcCarPrice resExample :=
  calcCarPrice_nonneg_of_ordered resExample (by
    intro sd st ed et h1 h2 h3 h4
    simp only [resExample, Option.some.injEq] at h1 h2 h3 h4
    subst h1; subst h2; subst h3; subst h4
    decide)

/-- Claim C4: a draft missing any of the four date or time fields prices
to 0 (total function, no failure path). -/
theorem calcCarPrice_missing_field_zero (r : Reservation)
    (h : r.startDate = none ∨ r.startTime = none ∨ r.endDate = none ∨ r.endTime = none) :
    calcCarPrice r = 0 :=
  calcCarPrice_missing_none r h

/-- Witness for C4 on a draft with no start time. -/
theorem calcCarPrice_missing_field_zero_witness :
    calcCarPrice { resExample with startTime := none } = 0 :=
  calcCarPrice_missing_field_zero _ (Or.inr (Or.inl rfl))

/-- Claim C9: the price depends only on the pricing-relevant fields; two
drafts agreeing on them get the same price whatever their other fields. -/
theorem calcCarPrice_depends_only_on_pricing_fields (r₁ r₂ : Reservation)
    (hsd : r₁.startDate = r₂.startDate) (hst : r₁.startTime = r₂.startTime)
    (hed : r₁.endDate = r₂.endDate) (het : r₁.endTime = r₂.endTime)
    (hv : r₁.vehicleType = r₂.vehicleType) (hdr : r₁.driver = r₂.driver)
    (hu : r₁.unlimitedKm = r₂.unlimitedKm) (hi : r₁.insurances = r₂.insurances)
    (he : r₁.equipments = r₂.equipments) :
    calcCarPrice r₁ = calcCarPrice r₂ := by
  unfold calcCarPrice
  rw [hsd, hst, hed, het, hv, hdr, hu, hi, he]

/-- Witness for C9: the example draft with every non-pricing field changed
prices identically. -/
theorem calcCarPrice_depends_only_on_pricing_fields_witness :
    calcCarPrice resExample =
      calcCarPrice { resExample with
        name := "Z", email := "z@z.z", phone := "07", address := "9 rue B"
        idNumber := "ID9", model := "Y", pickupLocation := "P2"
        dropoffLocation := "D2", paymentMethod := "Espèces", deposit := "0"
        notes := "n" } :=
  calcCarPrice_depends_only_on_pricing_fields _ _ rfl rfl rfl rfl rfl rfl rfl rfl rfl

/-- Claim C6: with an empty search term, a null sort field and ascending
direction, the view is the input list unchanged. -/
theorem view_no_query_identity (l : List RecordT) : view l "" none "asc" = l := by
  simp [view, filteredData, sortedData]

/-- Claim C8: the filter step is idempotent for any non-empty search term. -/
theorem filteredData_idem (term : String) (l : List RecordT) (h : term ≠ "") :
    filteredData term (filteredData term l) = filteredData term l := by
  simp only [filteredData, if_neg h]
  exact filter_twice _ _

/-- Witness for C8 on a two-record list and the term "go". -/
theorem filteredData_idem_witness :
    filteredData "go" (filteredData "go"
        [[("n", JSVal.str "Gontrand")], [("n", JSVal.str "Awa")]])
      = filteredData "go" [[("n", JSVal.str "Gontrand")], [("n", JSVal.str "Awa")]] :=
  filteredData_idem "go" _ (by decide)

theorem mem_insertS (c : α → α → Int) (x : α) (m : List α) (z : α) :
    z ∈ insertS c x m ↔ z = x ∨ z ∈ m := by
  induction m with
  | nil => simp [insertS]
  | cons y ys ih =>
    unfold insertS
    split_ifs <;> (simp [ih]; try tauto)


theorem insertS_perm (c : α → α → Int) (x : α) (m : List α) :
    List.Perm (insertS c x m) (x :: m) := by
  induction m with
  | nil => simp [insertS]
  | cons y ys ih =>
    unfold insertS
    split_ifs
    · exact List.Perm.refl _
    · exact (ih.cons y).trans (List.Perm.swap x y ys)

theorem stableSort_perm (c : α → α → Int) (l : List α) :
    List.Perm (stableSort c l) l := by
  induction l with
  | nil => simp [stableSort]
  | cons x xs ih => exact (insertS_perm c x _).trans (ih.cons x)

theorem sortedData_perm (l : List RecordT) (sf : Option String) (dir : String) :
    List.Perm (sortedData l sf dir) l := by
  cases sf with
  | none => exact List.Perm.refl _
  | some f =>
    unfold sortedData
    dsimp only
    split_ifs
    · exact List.Perm.refl _
    · exact stableSort_perm _ _

theorem sublist_insertS (c : α → α → Int) (a : α) {m l' : List α}
    (h : List.Sublist l' m) : List.Sublist l' (insertS c a m) := by
  induction m generalizing l' with
  | nil =>
    rw [List.sublist_nil] at h
    subst h
    exact List.nil_sublist _
  | cons y ys ih =>
    unfold insertS
    split_ifs
    · exact h.cons _
    · cases h with
      | cons _ h' => exact (ih h').cons y
      | cons₂ _ h' => exact (ih h').cons₂ y

theorem insertS_pair (c : α → α → Int) (x y : α) (m : List α)
    (hxy : c x y ≤ 0) (hy : y ∈ m) :
    List.Sublist [x, y] (insertS c x m) := by
  induction m with
  | nil => cases hy
  | cons z zs ih =>
    unfold insertS
    split_ifs with h
    · exact (List.singleton_sublist.mpr hy).cons₂ x
    · rcases List.mem_cons.mp hy with rfl | hy'
      · exact absurd hxy h
      · exact (ih hy').cons z

theorem stableSort_pair (c : α → α → Int) (x y : α) (l : List α)
    (hxy : c x y ≤ 0) (h : List.Sublist [x, y] l) :
    List.Sublist [x, y] (stableSort c l) := by
  induction l with
  | nil => simp at h
  | cons a as ih =>
    unfold stableSort
    cases h with
    | cons _ h' => exact sublist_insertS c a (ih h')
    | cons₂ _ h' =>
      have hy : y ∈ stableSort c as :=
        (stableSort_perm c as).mem_iff.mpr (List.singleton_sublist.mp h')
      exact insertS_pair c x y _ hxy hy

/-- Claim C5: the sort step is stable; two records whose values at the sort
field compare equal (comparator 0) keep their input order, in either
direction, stated as preservation of the two-element sublist. -/
theorem sortedData_stable (l : List RecordT) (f dir : String) (x y : RecordT)
    (h0 : recComp f dir x y = 0) (hsub : List.Sublist [x, y] l) :
    List.Sublist [x, y] (sortedData l (some f) dir) := by
  unfold sortedData
  dsimp only
  split_ifs
  · exact hsub
  · exact stableSort_pair _ x y l (le_of_eq h0) hsub

/-- Witness for C5: two records with the same value at the sort field stay in
input order through an ascending sort. -/
theorem sortedData_stable_witness :
    List.Sublist [[("v", JSVal.str "a"), ("id", JSVal.num 1)],
        [("v", JSVal.str "a"), ("id", JSVal.num 2)]]
      (sortedData [[("v", JSVal.str "a"), ("id", JSVal.num 1)],
        [("v", JSVal.str "a"), ("id", JSVal.num 2)]] (some "v") "asc") :=
  sortedData_stable _ "v" "asc" _ _ (by decide) (List.Sublist.refl _)

/-- Counterexample to claim C3: under an ascending sort on "v", the record
lacking the field stays after the record carrying it, instead of being
ordered first. -/
theorem sortedData_missing_field_not_first :
    getField ([] : RecordT) "v" = JSVal.undef ∧
    getField [("v", JSVal.str "b")] "v" ≠ JSVal.undef ∧
    sortedData [[("v", JSVal.str "b")], []] (some "v") "asc"
      = [[("v", JSVal.str "b")], []] ∧
    ([[("v", JSVal.str "b")], []] : List RecordT)
      ≠ [[], [("v", JSVal.str "b")]] := by
  refine ⟨rfl, by decide, by decide, by decide⟩

theorem optLt_none_left (y : Option Int) : optLt none y = false := by
  cases y <;> rfl

theorem optLt_none_right (x : Option Int) : optLt x none = false := by
  cases x <;> rfl

theorem jsLt_undef_left (v : JSVal) : jsLt JSVal.undef v = false := by
  cases v <;> simp [jsLt, toNumber, optLt_none_left, optLt_none_right]

theorem jsLt_undef_right (v : JSVal) : jsLt v JSVal.undef = false := by
  cases v <;> simp [jsLt, toNumber, optLt_none_left, optLt_none_right]

/-- Claim C3 (amended): a record on which the sort field is absent compares
equal to every record (the comparator returns 0, never an error), so it keeps
its relative input order with every record under the stable sort, rather than
ranking lowest. -/
theorem sortedData_missing_field_equal_rank (f dir : String) (a b : RecordT)
    (h : getField a f = JSVal.undef ∨ getField b f = JSVal.undef) :
    recComp f dir a b = 0 ∧
      ∀ l, List.Sublist [a, b] l →
        List.Sublist [a, b] (sortedData l (some f) dir) := by
  have h0 : recComp f dir a b = 0 := by
    unfold recComp
    rcases h with h | h <;> rw [h] <;>
      simp [jsLt_undef_left, jsLt_undef_right]
  refine ⟨h0, fun l hsub => ?_⟩
  unfold sortedData
  dsimp only
  split_ifs
  · exact hsub
  · exact stableSort_pair _ a b l (le_of_eq h0) hsub

/-- Witness for the amended C3 at a concrete missing-field record pair. -/
theorem sortedData_missing_field_equal_rank_witness :
    recComp "v" "asc" [] [("v", JSVal.str "b")] = 0 ∧
      ∀ l, List.Sublist [[], [("v", JSVal.str "b")]] l →
        List.Sublist [[], [("v", JSVal.str "b")]] (sortedData l (some "v") "asc") :=
  sortedData_missing_field_equal_rank "v" "asc" _ _ (Or.inl rfl)

/-- Claim C10: the view is a sub-multiset of its input: every output record
occurs in the input, with no higher multiplicity, and the output is no longer
than the input. -/
theorem view_subpermutation_of_input (l : List RecordT) (term : String)
    (sf : Option String) (dir : String) :
    (∀ r, r ∈ view l term sf dir → r ∈ l) ∧
    (∀ r, (view l term sf dir).countP (fun x => x = r)
      ≤ l.countP (fun x => x = r)) ∧
    (view l term sf dir).length ≤ l.length := by
  have hperm := sortedData_perm l sf dir
  have hsub : List.Sublist (view l term sf dir) (sortedData l sf dir) := by
    unfold view filteredData
    split_ifs
    · exact List.Sublist.refl _
    · exact List.filter_sublist _
  refine ⟨?_, ?_, ?_⟩
  · intro r hr
    exact hperm.subset (hsub.subset hr)
  · intro r
    exact (hsub.countP_le _).trans (le_of_eq (hperm.countP_eq _))
  · exact hsub.length_le.trans (le_of_eq hperm.length_eq)

theorem lexLt_asymm : ∀ {s t : List Char}, lexLt s t = true → lexLt t s = false := by
  intro s
  induction s with
  | nil =>
    intro t h
    cases t with
    | nil => simp [lexLt] at h
    | cons b bs => simp [lexLt]
  | cons a as ih =>
    intro t h
    cases t with
    | nil => simp [lexLt] at h
    | cons b bs =>
      simp only [lexLt] at h ⊢
      by_cases hab : a < b
      · have hba : ¬ b < a := asymm hab
        simp [hab, hba]
      · by_cases hba : b < a
        · simp [hab, hba] at h
        · simp only [if_neg hab, if_neg hba] at h ⊢
          exact ih h

theorem optLt_asymm : ∀ {x y : Option Int}, optLt x y = true → optLt y x = false := by
  intro x y h
  cases x <;> cases y <;> (simp [optLt] at h ⊢; try omega)

theorem jsLt_asymm : ∀ {a b : JSVal}, jsLt a b = true → jsLt b a = false := by
  intro a b h
  cases a <;> cases b <;>
    simp only [jsLt] at h ⊢ <;>
    first
      | exact lexLt_asymm h
      | exact optLt_asymm h

theorem recComp_asc_neg_iff (f : String) (a b : RecordT) :
    recComp f "asc" a b < 0 ↔ jsLt (getField a f) (getField b f) = true := by
  unfold recComp
  dsimp only
  cases h1 : jsLt (getField a f) (getField b f) <;>
    cases h2 : jsLt (getField b f) (getField a f) <;>
      simp

theorem recComp_antisymm (f dir : String) (a b : RecordT) :
    recComp f dir b a = - recComp f dir a b := by
  unfold recComp
  dsimp only
  cases h1 : jsLt (getField a f) (getField b f) with
  | true =>
    rw [jsLt_asymm h1]
    simp only [Bool.false_eq_true, if_false, if_true]
    split_ifs <;> norm_num
  | false =>
    cases h2 : jsLt (getField b f) (getField a f) with
    | true =>
      simp only [Bool.false_eq_true, if_false, if_true]
      split_ifs <;> norm_num
    | false =>
      simp only [Bool.false_eq_true, if_false, if_true]
      norm_num

theorem recComp_desc_eq_neg (f : String) (a b : RecordT) :
    recComp f "desc" a b = - recComp f "asc" a b := by
  unfold recComp
  dsimp only
  cases h1 : jsLt (getField a f) (getField b f) <;>
    cases h2 : jsLt (getField b f) (getField a f) <;>
      simp only [Bool.false_eq_true, if_false, if_true] <;>
        decide

theorem recComp_total (f dir : String) (a b : RecordT) :
    recComp f dir a b ≤ 0 ∨ recComp f dir b a ≤ 0 := by
  rcases le_or_lt (recComp f dir a b) 0 with h | h
  · exact Or.inl h
  · right
    rw [recComp_antisymm]
    omega

theorem insertS_pairwise (c : α → α → Int) (P : α → Prop)
    (htot : ∀ a b, c a b ≤ 0 ∨ c b a ≤ 0)
    (htr : ∀ a b d, P a → P b → P d → c a b ≤ 0 → c b d ≤ 0 → c a d ≤ 0)
    (x : α) (m : List α) (hx : P x) (hm : ∀ z ∈ m, P z)
    (hs : m.Pairwise fun a b => c a b ≤ 0) :
    (insertS c x m).Pairwise fun a b => c a b ≤ 0 := by
  induction m with
  | nil => simp [insertS]
  | cons y ys ih =>
    rw [List.pairwise_cons] at hs
    unfold insertS
    split_ifs with h
    · refine List.Pairwise.cons ?_ (List.Pairwise.cons hs.1 hs.2)
      intro z hz
      rcases List.mem_cons.mp hz with rfl | hz'
      · exact h
      · exact htr x y z hx (hm y (by simp)) (hm z (by simp [hz'])) h (hs.1 z hz')
    · refine List.Pairwise.cons ?_ (ih (fun z hz => hm z (by simp [hz])) hs.2)
      intro z hz
      rcases (mem_insertS c x ys z).mp hz with rfl | hz'
      · rcases htot z y with h' | h'
        · exact absurd h' h
        · exact h'
      · exact hs.1 z hz'

theorem stableSort_pairwise (c : α → α → Int) (P : α → Prop)
    (htot : ∀ a b, c a b ≤ 0 ∨ c b a ≤ 0)
    (htr : ∀ a b d, P a → P b → P d → c a b ≤ 0 → c b d ≤ 0 → c a d ≤ 0)
    (l : List α) (hl : ∀ z ∈ l, P z) :
    (stableSort c l).Pairwise fun a b => c a b ≤ 0 := by
  induction l with
  | nil => simp [stableSort]
  | cons x xs ih =>
    unfold stableSort
    refine insertS_pairwise c P htot htr x _ (hl x (by simp)) ?_ (ih ?_)
    · intro z hz
      exact hl z (by simp [(stableSort_perm c xs).subset hz])
    · intro z hz
      exact hl z (by simp [hz])

/-- Counterexample to claim C7: two records with distinct, mutually
incomparable values at the sort field (a non-numeric string and a boolean)
sort identically in both directions, so the descending output is not the
reverse of the ascending output. -/
theorem sortedData_desc_not_reverse_asc :
    getField [("v", JSVal.str "abc")] "v" ≠ getField [("v", JSVal.boolean true)] "v" ∧
    sortedData [[("v", JSVal.str "abc")], [("v", JSVal.boolean true)]] (some "v") "desc"
      ≠ (sortedData [[("v", JSVal.str "abc")], [("v", JSVal.boolean true)]]
          (some "v") "asc").reverse := by
  constructor <;> decide

/-- Claim C7 (amended): on a non-empty sort field, when no two records of the
list compare equal under the ascending comparator and that comparator is
transitive on the list's records (in particular whenever all the sort-field
values are strings, or all are numbers, with no duplicates), the descending
sort is exactly the reverse of the ascending sort. -/
theorem sortedData_desc_reverse_asc (l : List RecordT) (f : String) (hf : f ≠ "")
    (hpair : l.Pairwise fun a b => recComp f "asc" a b ≠ 0)
    (htr : ∀ a ∈ l, ∀ b ∈ l, ∀ d ∈ l,
      recComp f "asc" a b ≤ 0 → recComp f "asc" b d ≤ 0 → recComp f "asc" a d ≤ 0) :
    sortedData l (some f) "desc" = (sortedData l (some f) "asc").reverse := by
  unfold sortedData
  dsimp only
  rw [if_neg hf, if_neg hf]
  have hpA : List.Perm (stableSort (recComp f "asc") l) l := stableSort_perm _ l
  have hpD : List.Perm (stableSort (recComp f "desc") l) l := stableSort_perm _ l
  have hsA : (stableSort (recComp f "asc") l).Pairwise
      fun a b => recComp f "asc" a b ≤ 0 :=
    stableSort_pairwise _ (· ∈ l) (recComp_total f "asc")
      (fun a b d ha hb hd => htr a ha b hb d hd) l (fun _ hz => hz)
  have hsD : (stableSort (recComp f "desc") l).Pairwise
      fun a b => recComp f "desc" a b ≤ 0 :=
    stableSort_pairwise _ (· ∈ l) (recComp_total f "desc")
      (fun a b d ha hb hd h1 h2 => by
        rw [recComp_desc_eq_neg] at h1 h2 ⊢
        have h1' : recComp f "asc" b a ≤ 0 := by
          rw [recComp_antisymm]
          omega
        have h2' : recComp f "asc" d b ≤ 0 := by
          rw [recComp_antisymm]
          omega
        have h3 := htr d hd b hb a ha h2' h1'
        rw [recComp_antisymm] at h3
        omega)
      l (fun _ hz => hz)
  have hsymm : Symmetric (fun a b : RecordT => recComp f "asc" a b ≠ 0) := by
    intro a b h
    rw [recComp_antisymm]
    omega
  have hneqA : (stableSort (recComp f "asc") l).Pairwise
      fun a b => recComp f "asc" a b ≠ 0 :=
    (hpA.pairwise_iff (fun h => hsymm h)).mpr hpair
  have hneqD : (stableSort (recComp f "desc") l).Pairwise
      fun a b => recComp f "asc" a b ≠ 0 :=
    (hpD.pairwise_iff (fun h => hsymm h)).mpr hpair
  have hstrictA : (stableSort (recComp f "asc") l).Pairwise
      fun a b => recComp f "asc" a b < 0 :=
    (hsA.and hneqA).imp fun h => lt_of_le_of_ne h.1 h.2
  have hstrictDrev : (stableSort (recComp f "desc") l).reverse.Pairwise
      fun a b => recComp f "asc" a b < 0 := by
    rw [List.pairwise_reverse]
    refine (hsD.and hneqD).imp fun h => ?_
    obtain ⟨h1, h2⟩ := h
    rw [recComp_desc_eq_neg] at h1
    rw [recComp_antisymm]
    omega
  haveI : IsAntisymm RecordT (fun a b => recComp f "asc" a b < 0) := by
    refine ⟨fun a b h1 h2 => ?_⟩
    have j1 := (recComp_asc_neg_iff f a b).mp h1
    have j2 := (recComp_asc_neg_iff f b a).mp h2
    rw [jsLt_asymm j1] at j2
    cases j2
  have hperm2 : List.Perm (stableSort (recComp f "asc") l)
      ((stableSort (recComp f "desc") l).reverse) :=
    hpA.trans (hpD.symm.trans (List.reverse_perm _).symm)
  have heq : stableSort (recComp f "asc") l
      = (stableSort (recComp f "desc") l).reverse :=
    List.eq_of_perm_of_sorted hperm2 hstrictA hstrictDrev
  rw [heq, List.reverse_reverse]

/-- Witness for the amended C7 on three records with pairwise distinct string
values at the sort field. -/
theorem sortedData_desc_reverse_asc_witness :
    sortedData [[("v", JSVal.str "b")], [("v", JSVal.str "c")], [("v", JSVal.str "a")]]
        (some "v") "desc"
      = (sortedData [[("v", JSVal.str "b")], [("v", JSVal.str "c")], [("v", JSVal.str "a")]]
          (some "v") "asc").reverse :=
  sortedData_desc_reverse_asc _ "v" (by decide) (by decide) (by decide)

end GTraf
